import Mathlib

/-!
Verification of the Ping-Monitor repository (Tauri + Vue frontend with a
Rust monitoring engine). Latencies and rates are modelled over the exact
rationals, so the numerical-tolerance clauses of the specification become
exact equalities. Pure frontend logic (the ping-stats listener, the log
tab filter) is embedded directly from the sources under src/; the Rust
engine (StatsAggregator, RuleEvaluator, ProbeScheduler, SettingsStore,
HostRegistry) is not part of the visible repository, so those parts are
modelled from the specification and marked as such in their doc comments.
-/

namespace PingMonitor

/-- Condition of a display rule, from the DisplayRule interface shared by
the frontend components: either less or greater. -/
inductive Cond
  | less
  | greater
  deriving DecidableEq, Repr

/-- A display rule, from the DisplayRule interface in the frontend
sources: id, condition, threshold, label and an enabled flag. -/
structure DisplayRule where
  id : String
  condition : Cond
  threshold : ℚ
  label : String
  enabled : Bool
  deriving DecidableEq, Repr

/-- Modelled from the spec: the Rust backend RuleEvaluator is not in the
visible sources. Per the spec a rule matches when condition=less and
latency<threshold, or condition=greater and latency>threshold. -/
def ruleMatches (latency : ℚ) (r : DisplayRule) : Bool :=
  match r.condition with
  | Cond.less => decide (latency < r.threshold)
  | Cond.greater => decide (r.threshold < latency)

/-- Modelled from the spec: classify returns the labels of every enabled
rule whose condition holds against the current latency; disabled rules
are skipped and rules are evaluated independently. -/
def classify (latency : ℚ) (rules : List DisplayRule) : List String :=
  (rules.filter (fun r => r.enabled && ruleMatches latency r)).map (fun r => r.label)

/-- Log level of a dashboard log entry, from the LogEntry interface in
the frontend sources. -/
inductive LogLevel
  | DEBUG
  | INFO
  | WARN
  | ERROR
  deriving DecidableEq, Repr

/-- A dashboard log entry, from the LogEntry interface in the frontend
sources. The id and timestamp fields are ambient (random uuid, wall
clock) and irrelevant to the verified claims, so they are elided. -/
structure LogEntry where
  level : LogLevel
  message : String
  host : Option String
  deriving DecidableEq, Repr

/-- Filter selection of the logs tab: ALL or one concrete level, from
the logFilter ref in the LogsTab component. -/
inductive LogFilter
  | ALL
  | byLevel (l : LogLevel)
  deriving DecidableEq, Repr

/-- Embedding of filteredLogs from the LogsTab component: when the
filter is ALL the full list is returned unchanged, otherwise the list is
filtered to the entries whose level equals the selected one. -/
def filteredLogs (logs : List LogEntry) (f : LogFilter) : List LogEntry :=
  match f with
  | LogFilter.ALL => logs
  | LogFilter.byLevel L => logs.filter (fun log => log.level == L)

/-- Embedding of the log-buffer update in the ping-stats listener of the
root component: the new entry is prepended (unshift) and, when the
buffer then exceeds 1000 entries, the last element, which is the oldest
since the buffer is newest-first, is removed (pop). -/
def pushLog (logs : List LogEntry) (e : LogEntry) : List LogEntry :=
  let l := e :: logs
  if 1000 < l.length then l.dropLast else l

/-- Embedding of the hostHistory update in the ping-stats listener of
the root component: the new sample is appended and, when the buffer then
exceeds 100 entries, the first element, which is the oldest since the
buffer is oldest-first, is removed (shift). -/
def pushHistory (history : List ℚ) (current : ℚ) : List ℚ :=
  let newHistory := history ++ [current]
  if 100 < newHistory.length then newHistory.tail else newHistory

/-- A published per-host statistics snapshot, from the PingStats
interface in the frontend sources. -/
structure PingStats where
  host_id : String
  current : ℚ
  mean : ℚ
  std_dev : ℚ
  median : ℚ
  minLatency : ℚ
  maxLatency : ℚ
  total_pings : ℕ
  successful_pings : ℕ
  failed_pings : ℕ
  packet_loss_rate : ℚ
  success_rate : ℚ
  bytes_sent : ℕ
  bytes_received : ℕ
  peaks_count : ℕ
  peaks_per_minute : ℚ
  peaks_mean : ℚ
  peaks_max : ℚ
  last_peak : Option String
  status : String
  labels : List String
  start_time : String
  deriving DecidableEq, Repr

/-- Embedding of the log-entry generation in the ping-stats listener of
the root component: an ERROR entry on timeout (status Unusable, or a
failure recorded with current latency zero), a WARN entry above 100 ms,
an INFO entry otherwise; exactly one entry per event. The interpolated
numbers of the original messages are elided. -/
def mkLogEntry (stats : PingStats) (hostName : String) : LogEntry :=
  if stats.status == "Unusable" || (decide (0 < stats.failed_pings) && decide (stats.current = 0)) then
    { level := LogLevel.ERROR, message := "Request timed out", host := some hostName }
  else if 100 < stats.current then
    { level := LogLevel.WARN, message := "High latency detected", host := some hostName }
  else
    { level := LogLevel.INFO, message := "Reply", host := some hostName }

/-- Embedding of the effect of one ping-stats event on the log buffer:
the single generated entry is prepended through pushLog. -/
def onPingStatsLogs (logs : List LogEntry) (stats : PingStats) (hostName : String) : List LogEntry :=
  pushLog logs (mkLogEntry stats hostName)

/-- Kind of a probe failure, from the spec (section 4.1): Timeout,
Unreachable, ResolutionFailure, InvalidCommand. -/
inductive FailureKind
  | Timeout
  | Unreachable
  | ResolutionFailure
  | InvalidCommand
  deriving DecidableEq, Repr

/-- Outcome of one probe attempt, from the spec (section 3): either a
successful latency measurement with byte counters, or a typed failure. -/
inductive ProbeResult
  | success (latency : ℚ) (bytesSent bytesReceived : ℕ)
  | failure (kind : FailureKind)
  deriving DecidableEq, Repr

/-- Modelled from the spec: one step of the streaming single-pass
mean/variance update of the backend StatsAggregator (Welford form), over
the running accumulators count, mean and the sum of squared deviations
m2 only. -/
def welfordStep (count : ℕ) (mean m2 : ℚ) (x : ℚ) : ℕ × ℚ × ℚ :=
  (count + 1,
   mean + (x - mean) / ((count : ℚ) + 1),
   m2 + (x - mean) * (x - (mean + (x - mean) / ((count : ℚ) + 1))))

/-- Folding welfordStep over a list of latency samples starting from the
empty accumulator state. -/
def welfordFold (xs : List ℚ) : ℕ × ℚ × ℚ :=
  xs.foldl (fun s x => welfordStep s.1 s.2.1 s.2.2 x) (0, 0, 0)

/-- Batch mean of a list of samples (zero on the empty list, since
division by zero is zero over the rationals). -/
def batchMean (xs : List ℚ) : ℚ := xs.sum / (xs.length : ℚ)

/-- Batch variance of a list of samples: the mean of the squared
deviations from the batch mean. -/
def batchVar (xs : List ℚ) : ℚ :=
  ((xs.map (fun x => (x - batchMean xs) ^ 2)).sum) / (xs.length : ℚ)

/-- Modelled from the spec: the running statistics held by the backend
StatsAggregator for one host. Only running accumulators plus the
bounded recency window are stored, never the full sample history; the
peak counters, status and session start time of the spec are elided as
no claim concerns them. -/
structure RunningStats where
  total_pings : ℕ
  successful_pings : ℕ
  failed_pings : ℕ
  count : ℕ
  mean : ℚ
  m2 : ℚ
  window : List ℚ
  bytes_sent : ℕ
  bytes_received : ℕ
  deriving DecidableEq, Repr

/-- Fresh running statistics created when monitoring starts. -/
def initStats : RunningStats :=
  { total_pings := 0, successful_pings := 0, failed_pings := 0,
    count := 0, mean := 0, m2 := 0, window := [],
    bytes_sent := 0, bytes_received := 0 }

/-- Modelled from the spec: StatsAggregator.update. On success, total
and success counters, byte counters, the streaming accumulators and the
capacity-100 recency window are updated; on failure, success counters
are unaffected but total and failed counters increment. -/
def updateStats (s : RunningStats) (r : ProbeResult) : RunningStats :=
  match r with
  | ProbeResult.success lat bs br =>
    let w := welfordStep s.count s.mean s.m2 lat
    { s with total_pings := s.total_pings + 1,
             successful_pings := s.successful_pings + 1,
             count := w.1, mean := w.2.1, m2 := w.2.2,
             window := pushHistory s.window lat,
             bytes_sent := s.bytes_sent + bs,
             bytes_received := s.bytes_received + br }
  | ProbeResult.failure _ =>
    { s with total_pings := s.total_pings + 1,
             failed_pings := s.failed_pings + 1 }

/-- Processing a whole sequence of probe results from fresh statistics. -/
def processResults (rs : List ProbeResult) : RunningStats :=
  rs.foldl updateStats initStats

/-- Modelled from the spec: success_rate = successful/total*100, zero
when total is zero. -/
def successRate (s : RunningStats) : ℚ :=
  if s.total_pings = 0 then 0 else (s.successful_pings : ℚ) / (s.total_pings : ℚ) * 100

/-- Modelled from the spec: packet_loss_rate = failed/total*100, zero
when total is zero. -/
def packetLossRate (s : RunningStats) : ℚ :=
  if s.total_pings = 0 then 0 else (s.failed_pings : ℚ) / (s.total_pings : ℚ) * 100

/-- Unfolding one appended sample of the streaming fold. -/
theorem welfordFold_append (xs : List ℚ) (x : ℚ) :
    welfordFold (xs ++ [x]) =
      welfordStep (welfordFold xs).1 (welfordFold xs).2.1 (welfordFold xs).2.2 x := by
  simp [welfordFold, List.foldl_append]

/-- Loop invariant of the streaming fold: the count is the number of
samples, mean times count is the sum, and m2 times count is count times
the sum of squares minus the square of the sum. -/
theorem welford_inv (xs : List ℚ) :
    (welfordFold xs).1 = xs.length ∧
    (welfordFold xs).2.1 * (xs.length : ℚ) = xs.sum ∧
    (welfordFold xs).2.2 * (xs.length : ℚ)
      = (xs.length : ℚ) * (xs.map (fun y => y ^ 2)).sum - xs.sum ^ 2 := by
  induction xs using List.reverseRecOn with
  | nil => simp [welfordFold]
  | append_singleton ys x ih =>
    obtain ⟨hn, hmean, hm2⟩ := ih
    rcases eq_or_ne ys [] with hys | hys
    · subst hys
      refine ⟨by simp [welfordFold, welfordStep], ?_, ?_⟩ <;>
        simp [welfordFold, welfordStep]
    · have hN0 : ((ys.length : ℚ)) ≠ 0 := by
        exact_mod_cast Nat.pos_iff_ne_zero.mp (List.length_pos.mpr hys)
      have hmean2 : (welfordFold ys).2.1 = ys.sum / (ys.length : ℚ) :=
        (eq_div_iff hN0).mpr hmean
      have hm22 : (welfordFold ys).2.2
          = ((ys.length : ℚ) * (ys.map (fun y => y ^ 2)).sum - ys.sum ^ 2) / (ys.length : ℚ) :=
        (eq_div_iff hN0).mpr hm2
      rw [welfordFold_append]
      simp only [welfordStep, hn, hmean2, hm22, List.length_append, List.sum_append,
        List.map_append, List.length_singleton, List.sum_singleton, List.map_singleton]
      push_cast
      refine ⟨trivial, ?_, ?_⟩
      · field_simp
        ring
      · field_simp
        ring

/-- Expansion of the sum of squared deviations around any center. -/
theorem sum_sq_dev (xs : List ℚ) (c : ℚ) :
    (xs.map (fun x => (x - c) ^ 2)).sum
      = (xs.map (fun y => y ^ 2)).sum - 2 * c * xs.sum + (xs.length : ℚ) * c ^ 2 := by
  induction xs with
  | nil => simp
  | cons a t ih =>
    simp only [List.map_cons, List.sum_cons, List.length_cons, ih]
    push_cast
    ring

/-- The streaming accumulators of a run of StatsAggregator.update over a
sequence of successful samples coincide with the bare streaming fold. -/
theorem foldl_success_acc (xs : List ℚ) (bs br : ℕ) (s : RunningStats) :
    (((xs.map (fun x => ProbeResult.success x bs br)).foldl updateStats s).count,
     ((xs.map (fun x => ProbeResult.success x bs br)).foldl updateStats s).mean,
     ((xs.map (fun x => ProbeResult.success x bs br)).foldl updateStats s).m2)
    = xs.foldl (fun t x => welfordStep t.1 t.2.1 t.2.2 x) (s.count, s.mean, s.m2) := by
  induction xs generalizing s with
  | nil => rfl
  | cons a t ih =>
    simp only [List.map_cons, List.foldl_cons]
    rw [ih]
    rfl

/-- C1: for any sequence of latency samples fed to the streaming update
of the StatsAggregator, the streaming mean equals the batch mean and the
streaming variance m2/N equals the batch variance over the same samples
(exactly, over the rationals, which subsumes the small numerical
tolerance of the spec), hence the standard deviations, their square
roots, also agree; the streaming values are computed from the running
accumulators count, mean and m2 alone, as the accumulator type of the
fold shows, never from a stored full sample history. -/
theorem C1_streaming_stats_match_batch (xs : List ℚ) (bs br : ℕ) :
    (processResults (xs.map (fun x => ProbeResult.success x bs br))).mean = batchMean xs ∧
    (processResults (xs.map (fun x => ProbeResult.success x bs br))).m2 / (xs.length : ℚ)
      = batchVar xs ∧
    (welfordFold xs).1 = xs.length ∧
    (welfordFold xs).2.1 = batchMean xs ∧
    (welfordFold xs).2.2 / (xs.length : ℚ) = batchVar xs ∧
    Real.sqrt (((welfordFold xs).2.2 / (xs.length : ℚ) : ℚ))
      = Real.sqrt ((batchVar xs : ℚ)) := by
  obtain ⟨hn, hmean, hm2⟩ := welford_inv xs
  have hacc : ((processResults (xs.map (fun x => ProbeResult.success x bs br))).count,
      (processResults (xs.map (fun x => ProbeResult.success x bs br))).mean,
      (processResults (xs.map (fun x => ProbeResult.success x bs br))).m2)
      = welfordFold xs :=
    foldl_success_acc xs bs br initStats
  have hmean0 : (processResults (xs.map (fun x => ProbeResult.success x bs br))).mean
      = (welfordFold xs).2.1 := congrArg (fun t => t.2.1) hacc
  have hm20 : (processResults (xs.map (fun x => ProbeResult.success x bs br))).m2
      = (welfordFold xs).2.2 := congrArg (fun t => t.2.2) hacc
  have hwmean : (welfordFold xs).2.1 = batchMean xs := by
    rcases eq_or_ne xs [] with h | h
    · subst h
      simp [welfordFold, batchMean]
    · have hN0 : ((xs.length : ℚ)) ≠ 0 := by
        exact_mod_cast Nat.pos_iff_ne_zero.mp (List.length_pos.mpr h)
      simp only [batchMean]
      exact (eq_div_iff hN0).mpr hmean
  have hwvar : (welfordFold xs).2.2 / (xs.length : ℚ) = batchVar xs := by
    rcases eq_or_ne xs [] with h | h
    · subst h
      simp [welfordFold, batchVar]
    · have hN0 : ((xs.length : ℚ)) ≠ 0 := by
        exact_mod_cast Nat.pos_iff_ne_zero.mp (List.length_pos.mpr h)
      have hm22 : (welfordFold xs).2.2
          = ((xs.length : ℚ) * (xs.map (fun y => y ^ 2)).sum - xs.sum ^ 2) / (xs.length : ℚ) :=
        (eq_div_iff hN0).mpr hm2
      simp only [batchVar, sum_sq_dev, batchMean, hm22]
      field_simp
      ring
  exact ⟨hmean0.trans hwmean, by rw [hm20, hwvar], hn, hwmean, hwvar, by rw [hwvar]⟩

/-- The history push keeps the buffer within capacity 100. -/
theorem pushHistory_length_le (h : List ℚ) (c : ℚ) (hle : h.length ≤ 100) :
    (pushHistory h c).length ≤ 100 := by
  simp only [pushHistory]
  split <;> rename_i hcond <;>
    simp only [List.length_tail, List.length_append, List.length_singleton] at hcond ⊢ <;>
    omega

/-- At capacity the history push evicts exactly the first, oldest entry. -/
theorem pushHistory_at_capacity (h : List ℚ) (c : ℚ) (hlen : h.length = 100) :
    pushHistory h c = h.tail ++ [c] := by
  cases h with
  | nil => simp at hlen
  | cons a t =>
    have hgt : 100 < ((a :: t) ++ [c]).length := by
      simp only [List.length_append, List.length_singleton]
      omega
    simp only [pushHistory]
    rw [if_pos hgt]
    simp

/-- The recency window stays within capacity along any run of updates. -/
theorem foldl_window_le (rs : List ProbeResult) (s : RunningStats)
    (hs : s.window.length ≤ 100) : ((rs.foldl updateStats s).window).length ≤ 100 := by
  induction rs generalizing s with
  | nil => exact hs
  | cons r t ih =>
    apply ih
    cases r with
    | success lat bs br => exact pushHistory_length_le _ _ hs
    | failure k => exact hs

/-- C2: for every sequence of probe results processed from fresh
statistics the recency window never holds more than 100 entries, the
chart-facing history buffer of the frontend listener preserves the same
bound under its push, and when a push happens at capacity 100 the
oldest, first entry is the one evicted. -/
theorem C2_recency_window_bounded :
    (∀ rs : List ProbeResult, ((processResults rs).window).length ≤ 100) ∧
    (∀ (h : List ℚ) (c : ℚ), h.length ≤ 100 → (pushHistory h c).length ≤ 100) ∧
    (∀ (h : List ℚ) (c : ℚ), h.length = 100 → pushHistory h c = h.tail ++ [c]) :=
  ⟨fun rs => foldl_window_le rs initStats (by simp [initStats]),
   fun h c hle => pushHistory_length_le h c hle,
   fun h c hlen => pushHistory_at_capacity h c hlen⟩

/-- C2 witness: the bound and the eviction evaluated at capacity. -/
theorem C2_recency_window_bounded_witness :
    ((processResults [ProbeResult.success 5 64 64]).window).length ≤ 100 ∧
    (List.replicate 100 (3 : ℚ)).length ≤ 100 ∧
    (pushHistory (List.replicate 100 (3 : ℚ)) 7).length ≤ 100 ∧
    pushHistory (List.replicate 100 (3 : ℚ)) 7 = (List.replicate 100 (3 : ℚ)).tail ++ [7] :=
  ⟨C2_recency_window_bounded.1 [ProbeResult.success 5 64 64],
   by simp,
   C2_recency_window_bounded.2.1 _ 7 (by simp),
   C2_recency_window_bounded.2.2 _ 7 (by simp)⟩

/-- The counter invariant successful + failed = total is preserved along
any run of updates. -/
theorem foldl_counters (rs : List ProbeResult) (s : RunningStats)
    (hs : s.successful_pings + s.failed_pings = s.total_pings) :
    (rs.foldl updateStats s).successful_pings + (rs.foldl updateStats s).failed_pings
      = (rs.foldl updateStats s).total_pings := by
  induction rs generalizing s with
  | nil => exact hs
  | cons r t ih =>
    apply ih
    cases r with
    | success lat bs br =>
      simp only [updateStats]
      omega
    | failure k =>
      simp only [updateStats]
      omega

/-- Two complementary shares of a positive total sum to 100 percent. -/
theorem rate_sum (a b t : ℕ) (hab : a + b = t) (ht : 0 < t) :
    (a : ℚ) / (t : ℚ) * 100 + (b : ℚ) / (t : ℚ) * 100 = 100 := by
  have ht0 : (t : ℚ) ≠ 0 := by
    exact_mod_cast Nat.pos_iff_ne_zero.mp ht
  have habq : (a : ℚ) + (b : ℚ) = (t : ℚ) := by exact_mod_cast hab
  field_simp
  linarith

/-- Embedding of the counter sums of aggregatedStats from the
StatisticsTab component: total, success and failed counters are summed
over all per-host snapshots with reduce. -/
def aggTotal (l : List PingStats) : ℕ := (l.map (fun s => s.total_pings)).sum

/-- Embedding of the successful-pings sum of aggregatedStats. -/
def aggSuccess (l : List PingStats) : ℕ := (l.map (fun s => s.successful_pings)).sum

/-- Embedding of the failed-pings sum of aggregatedStats. -/
def aggFailed (l : List PingStats) : ℕ := (l.map (fun s => s.failed_pings)).sum

/-- Embedding of the aggregated success rate of aggregatedStats:
success/total*100 when the total is positive, else zero. -/
def aggSuccessRate (l : List PingStats) : ℚ :=
  if 0 < aggTotal l then (aggSuccess l : ℚ) / (aggTotal l : ℚ) * 100 else 0

/-- Embedding of the aggregated packet loss rate of aggregatedStats:
failed/total*100 when the total is positive, else zero. -/
def aggPacketLossRate (l : List PingStats) : ℚ :=
  if 0 < aggTotal l then (aggFailed l : ℚ) / (aggTotal l : ℚ) * 100 else 0

/-- When each snapshot satisfies the counter invariant, so do the
aggregated counters. -/
theorem agg_counters (l : List PingStats)
    (hl : ∀ s ∈ l, s.successful_pings + s.failed_pings = s.total_pings) :
    aggSuccess l + aggFailed l = aggTotal l := by
  induction l with
  | nil => rfl
  | cons a t ih =>
    simp only [aggSuccess, aggFailed, aggTotal, List.map_cons, List.sum_cons] at ih ⊢
    have ha := hl a (by simp)
    have ht := ih (fun s hs => hl s (by simp [hs]))
    omega

/-- C3: for every host statistics state reachable from fresh statistics,
successful plus failed pings equals total pings; with a positive total
the success and loss rates are successful/total*100 and failed/total*100
and sum exactly to 100, and with a zero total both rates are zero; the
aggregated snapshot of the statistics tab satisfies the same laws given
per-host snapshots satisfying the counter invariant. -/
theorem C3_rates_consistent :
    (∀ rs : List ProbeResult,
      (processResults rs).successful_pings + (processResults rs).failed_pings
        = (processResults rs).total_pings) ∧
    (∀ rs : List ProbeResult, 0 < (processResults rs).total_pings →
      successRate (processResults rs)
          = ((processResults rs).successful_pings : ℚ)
              / ((processResults rs).total_pings : ℚ) * 100 ∧
      packetLossRate (processResults rs)
          = ((processResults rs).failed_pings : ℚ)
              / ((processResults rs).total_pings : ℚ) * 100 ∧
      successRate (processResults rs) + packetLossRate (processResults rs) = 100) ∧
    (∀ rs : List ProbeResult, (processResults rs).total_pings = 0 →
      successRate (processResults rs) = 0 ∧ packetLossRate (processResults rs) = 0) ∧
    (∀ l : List PingStats,
      (∀ s ∈ l, s.successful_pings + s.failed_pings = s.total_pings) →
      aggSuccess l + aggFailed l = aggTotal l ∧
      (0 < aggTotal l → aggSuccessRate l + aggPacketLossRate l = 100) ∧
      (aggTotal l = 0 → aggSuccessRate l = 0 ∧ aggPacketLossRate l = 0)) := by
  refine ⟨?_, ?_, ?_, ?_⟩
  · intro rs
    exact foldl_counters rs initStats rfl
  · intro rs hpos
    have hc := foldl_counters rs initStats rfl
    have hne : (processResults rs).total_pings ≠ 0 := Nat.pos_iff_ne_zero.mp hpos
    refine ⟨by simp [successRate, hne], by simp [packetLossRate, hne], ?_⟩
    simp only [successRate, packetLossRate, if_neg hne]
    exact rate_sum _ _ _ hc hpos
  · intro rs h0
    simp [successRate, packetLossRate, h0]
  · intro l hl
    have hc := agg_counters l hl
    refine ⟨hc, ?_, ?_⟩
    · intro hpos
      simp only [aggSuccessRate, aggPacketLossRate, if_pos hpos]
      exact rate_sum _ _ _ hc hpos
    · intro h0
      simp [aggSuccessRate, aggPacketLossRate, h0]

/-- A concrete per-host snapshot used by witnesses. -/
def samplePingStats : PingStats :=
  { host_id := "h1", current := 42, mean := 40, std_dev := 2, median := 41,
    minLatency := 30, maxLatency := 55, total_pings := 10, successful_pings := 9,
    failed_pings := 1, packet_loss_rate := 10, success_rate := 90,
    bytes_sent := 640, bytes_received := 640, peaks_count := 1,
    peaks_per_minute := 1, peaks_mean := 55, peaks_max := 55,
    last_peak := none, status := "Success", labels := ["P2P"],
    start_time := "2026-01-01T00:00:00Z" }

/-- C3 witness: the rates of a concrete run with one success and one
timeout sum to 100, and the aggregated counters of a concrete snapshot
list are consistent. -/
theorem C3_rates_consistent_witness :
    0 < (processResults [ProbeResult.success 5 64 64,
        ProbeResult.failure FailureKind.Timeout]).total_pings ∧
    successRate (processResults [ProbeResult.success 5 64 64,
        ProbeResult.failure FailureKind.Timeout])
      + packetLossRate (processResults [ProbeResult.success 5 64 64,
        ProbeResult.failure FailureKind.Timeout]) = 100 ∧
    aggSuccess [samplePingStats] + aggFailed [samplePingStats] = aggTotal [samplePingStats] := by
  have htotal : 0 < (processResults [ProbeResult.success 5 64 64,
      ProbeResult.failure FailureKind.Timeout]).total_pings := by decide
  have hinv : ∀ s ∈ [samplePingStats],
      s.successful_pings + s.failed_pings = s.total_pings := by
    intro s hs
    rw [List.mem_singleton] at hs
    subst hs
    rfl
  exact ⟨htotal, (C3_rates_consistent.2.1 _ htotal).2.2,
    ((C3_rates_consistent.2.2.2 [samplePingStats]) hinv).1⟩

/-- C4: classify returns exactly the labels of enabled rules whose
condition holds — a label is included iff some rule of the list is
enabled, its condition holds against the latency in the less or greater
sense, and carries that label; disabled rules contribute nothing, rules
are evaluated independently so several labels may apply at once, and an
empty rule set yields no labels. -/
theorem C4_classify_spec (latency : ℚ) (rules : List DisplayRule) :
    (∀ l : String, l ∈ classify latency rules ↔
      ∃ r ∈ rules, r.enabled = true ∧
        ((r.condition = Cond.less ∧ latency < r.threshold) ∨
         (r.condition = Cond.greater ∧ r.threshold < latency)) ∧
        r.label = l) ∧
    classify latency [] = [] := by
  refine ⟨?_, rfl⟩
  intro l
  simp only [classify, List.mem_map, List.mem_filter, Bool.and_eq_true]
  constructor
  · rintro ⟨r, ⟨hr, he, hm⟩, hl⟩
    refine ⟨r, hr, he, ?_, hl⟩
    cases hc : r.condition <;>
      simp only [ruleMatches, hc, decide_eq_true_eq] at hm
    · exact Or.inl ⟨rfl, hm⟩
    · exact Or.inr ⟨rfl, hm⟩
  · rintro ⟨r, hr, he, hcond, hl⟩
    refine ⟨r, ⟨hr, he, ?_⟩, hl⟩
    rcases hcond with ⟨hc, hlt⟩ | ⟨hc, hlt⟩ <;>
      simp only [ruleMatches, hc, decide_eq_true_eq]
    · exact hlt
    · exact hlt

/-- Modelled from the spec: the live association of a host id with its
running statistics; the scheduling handle is implicit in the presence of
the session in the scheduler state. -/
structure MonitorSession where
  stats : RunningStats
  deriving DecidableEq, Repr

/-- Modelled from the spec: the ProbeScheduler state, an index from host
id to session for every Running host; a host with no session is
Stopped. -/
structure SchedState where
  sessions : List (String × MonitorSession)
  deriving DecidableEq, Repr

/-- Lookup of the session of a host id in the scheduler state. -/
def findSession (st : SchedState) (id : String) : Option MonitorSession :=
  (st.sessions.find? (fun p => p.1 == id)).map (fun p => p.2)

/-- Modelled from the spec: start_monitoring creates a MonitorSession
with fresh RunningStats when the host is Stopped, and is a no-op for a
host that is already Running (session and statistics preserved). -/
def startMonitoring (st : SchedState) (id : String) : SchedState :=
  match findSession st id with
  | some _ => st
  | none => { sessions := (id, { stats := initStats }) :: st.sessions }

/-- Modelled from the spec: stop_monitoring discards the MonitorSession
of the host, cancelling its scheduled cycle. -/
def stopMonitoring (st : SchedState) (id : String) : SchedState :=
  { sessions := st.sessions.filter (fun p => p.1 != id) }

/-- A published snapshot event: host id of the session together with the
statistics after the tick. -/
structure Snapshot where
  host_id : String
  stats : RunningStats
  deriving DecidableEq, Repr

/-- Scheduler-visible events: start and stop commands and the completion
of one probe cycle (tick) for one host. -/
inductive Event
  | start (id : String)
  | stop (id : String)
  | tick (id : String) (r : ProbeResult)
  deriving DecidableEq, Repr

/-- Modelled from the spec: one scheduler step and the snapshots it
publishes. A tick for a Running host feeds its statistics and publishes
one snapshot for that host id; a tick for a Stopped host is an
abandoned in-flight probe: it publishes nothing and leaves the state,
hence every shared counter, unchanged. -/
def schedStep (st : SchedState) (e : Event) : SchedState × List Snapshot :=
  match e with
  | Event.start id => (startMonitoring st id, [])
  | Event.stop id => (stopMonitoring st id, [])
  | Event.tick id r =>
    match findSession st id with
    | none => (st, [])
    | some s =>
      ({ sessions := st.sessions.map
          (fun p => if p.1 == id then (id, { stats := updateStats s.stats r }) else p) },
       [{ host_id := id, stats := updateStats s.stats r }])

/-- Running a whole trace of events, collecting every published
snapshot in order. -/
def runTrace (st : SchedState) (es : List Event) : SchedState × List Snapshot :=
  match es with
  | [] => (st, [])
  | e :: rest =>
    ((runTrace (schedStep st e).1 rest).1,
     (schedStep st e).2 ++ (runTrace (schedStep st e).1 rest).2)

/-- A stopped host stays stopped under any event other than its own
start command, and such an event publishes no snapshot for it. -/
theorem schedStep_stopped (st : SchedState) (id : String) (e : Event)
    (hnone : findSession st id = none) (hne : e ≠ Event.start id) :
    findSession (schedStep st e).1 id = none ∧
    ∀ snap ∈ (schedStep st e).2, snap.host_id ≠ id := by
  have hfind : st.sessions.find? (fun p => p.1 == id) = none := by
    simpa [findSession, Option.map_eq_none'] using hnone
  have hnotmem : ∀ p ∈ st.sessions, ¬ (p.1 == id) = true := List.find?_eq_none.mp hfind
  cases e with
  | start id2 =>
    have hid2 : id2 ≠ id := fun h => hne (by rw [h])
    cases hfs : findSession st id2 with
    | some s =>
      refine ⟨by simpa [schedStep, startMonitoring, hfs] using hnone, ?_⟩
      intro snap hsnap
      simp [schedStep] at hsnap
    | none =>
      constructor
      · simp only [schedStep, startMonitoring, hfs]
        simp only [findSession]
        rw [Option.map_eq_none', List.find?_eq_none]
        intro p hp
        rcases List.mem_cons.mp hp with h | h
        · subst h
          simpa using hid2
        · exact hnotmem p h
      · intro snap hsnap
        simp [schedStep] at hsnap
  | stop id2 =>
    constructor
    · simp only [schedStep, stopMonitoring, findSession]
      rw [Option.map_eq_none', List.find?_eq_none]
      intro p hp
      exact hnotmem p (List.mem_of_mem_filter hp)
    · intro snap hsnap
      simp [schedStep] at hsnap
  | tick id2 r =>
    cases hfs : findSession st id2 with
    | none =>
      refine ⟨by simpa [schedStep, hfs] using hnone, ?_⟩
      intro snap hsnap
      simp [schedStep, hfs] at hsnap
    | some s =>
      have hid2 : id2 ≠ id := by
        intro h
        rw [h, hnone] at hfs
        cases hfs
      constructor
      · simp only [schedStep, hfs]
        simp only [findSession]
        rw [Option.map_eq_none', List.find?_eq_none]
        intro p hp
        rcases List.mem_map.mp hp with ⟨q, hq, hpq⟩
        by_cases hqid : (q.1 == id2) = true
        · rw [if_pos hqid] at hpq
          subst hpq
          simpa using hid2
        · rw [if_neg hqid] at hpq
          subst hpq
          exact hnotmem q hq
      · intro snap hsnap
        simp only [schedStep, hfs, List.mem_singleton] at hsnap
        subst hsnap
        exact hid2

/-- Once a host has no session, a trace without its start command never
publishes a snapshot for it and leaves it without a session. -/
theorem runTrace_stopped (es : List Event) : ∀ (st : SchedState) (id : String),
    findSession st id = none → Event.start id ∉ es →
    findSession (runTrace st es).1 id = none ∧
    ∀ snap ∈ (runTrace st es).2, snap.host_id ≠ id := by
  induction es with
  | nil =>
    intro st id hnone hns
    refine ⟨hnone, ?_⟩
    intro snap h
    simp [runTrace] at h
  | cons e rest ih =>
    intro st id hnone hns
    have hne : e ≠ Event.start id := fun h => hns (by rw [h]; exact List.mem_cons_self _ _)
    have hrest : Event.start id ∉ rest := fun h => hns (List.mem_cons_of_mem _ h)
    obtain ⟨h1, h2⟩ := schedStep_stopped st id e hnone hne
    obtain ⟨h3, h4⟩ := ih (schedStep st e).1 id h1 hrest
    refine ⟨h3, ?_⟩
    intro snap hsnap
    simp only [runTrace, List.mem_append] at hsnap
    rcases hsnap with h | h
    · exact h2 snap h
    · exact h4 snap h

/-- C5: start is idempotent on a Running host — for a host that already
has a session, issuing start again returns the state unchanged, so the
existing MonitorSession and its RunningStats are preserved and no second
session is created; consequently start after start equals a single
start on every state. -/
theorem C5_start_idempotent :
    (∀ (st : SchedState) (id : String),
      startMonitoring (startMonitoring st id) id = startMonitoring st id) ∧
    (∀ (st : SchedState) (id : String) (s : MonitorSession),
      findSession st id = some s →
        startMonitoring st id = st ∧
        findSession (startMonitoring st id) id = some s ∧
        (startMonitoring st id).sessions = st.sessions) := by
  have hrun : ∀ (st : SchedState) (id : String) (s : MonitorSession),
      findSession st id = some s → startMonitoring st id = st := by
    intro st id s hs
    simp [startMonitoring, hs]
  constructor
  · intro st id
    cases hfs : findSession st id with
    | some s => rw [hrun st id s hfs, hrun st id s hfs]
    | none =>
      have hnew : findSession (startMonitoring st id) id
          = some ({ stats := initStats } : MonitorSession) := by
        simp only [startMonitoring, hfs]
        simp [findSession]
      exact hrun _ id _ hnew
  · intro st id s hs
    refine ⟨hrun st id s hs, ?_, ?_⟩
    · rw [hrun st id s hs]
      exact hs
    · rw [hrun st id s hs]

/-- C5 witness: starting a concretely running host is a no-op that
keeps its session. -/
theorem C5_start_idempotent_witness :
    findSession (startMonitoring { sessions := [] } "h1") "h1"
        = some ({ stats := initStats } : MonitorSession) ∧
    startMonitoring (startMonitoring { sessions := [] } "h1") "h1"
        = startMonitoring { sessions := [] } "h1" := by
  have hs : findSession (startMonitoring { sessions := [] } "h1") "h1"
      = some ({ stats := initStats } : MonitorSession) := by
    simp [startMonitoring, findSession]
  exact ⟨hs, (C5_start_idempotent.2 _ "h1" _ hs).1⟩

/-- C6: after stop, a trace of later events that contains no start
command for that host publishes no snapshot for that host id; and an
abandoned in-flight probe, a tick arriving for a host with no session,
publishes nothing and leaves the state, hence every shared counter,
unchanged. -/
theorem C6_stop_halts_publication :
    (∀ (st : SchedState) (id : String) (es : List Event),
      Event.start id ∉ es →
      ∀ snap ∈ (runTrace (stopMonitoring st id) es).2, snap.host_id ≠ id) ∧
    (∀ (st : SchedState) (id : String) (r : ProbeResult),
      findSession st id = none → schedStep st (Event.tick id r) = (st, [])) := by
  have hstop : ∀ (st : SchedState) (id : String),
      findSession (stopMonitoring st id) id = none := by
    intro st id
    simp only [stopMonitoring, findSession]
    rw [Option.map_eq_none', List.find?_eq_none]
    intro p hp
    have hpf := List.of_mem_filter hp
    simpa using hpf
  constructor
  · intro st id es hns
    exact (runTrace_stopped es (stopMonitoring st id) id (hstop st id) hns).2
  · intro st id r hnone
    simp [schedStep, hnone]

/-- A two-host scheduler state used by the C6 witness. -/
def schedTwoHosts : SchedState :=
  startMonitoring (startMonitoring { sessions := [] } "h2") "h1"

/-- The snapshot published for host h2 in the C6 witness trace. -/
def sampleSnap : Snapshot :=
  { host_id := "h2", stats := updateStats initStats (ProbeResult.failure FailureKind.Timeout) }

/-- C6 witness: in a concrete trace run after stopping host h1, the one
published snapshot belongs to the other host, and a stale tick for the
stopped host leaves a concrete state untouched. -/
theorem C6_stop_halts_publication_witness :
    (Event.start "h1" ∉ [Event.tick "h2" (ProbeResult.failure FailureKind.Timeout)]) ∧
    sampleSnap ∈ (runTrace (stopMonitoring schedTwoHosts "h1")
        [Event.tick "h2" (ProbeResult.failure FailureKind.Timeout)]).2 ∧
    sampleSnap.host_id ≠ "h1" ∧
    findSession ({ sessions := [] } : SchedState) "h1" = none ∧
    schedStep ({ sessions := [] } : SchedState)
        (Event.tick "h1" (ProbeResult.failure FailureKind.Timeout))
      = (({ sessions := [] } : SchedState), []) := by
  have hmem : Event.start "h1" ∉ [Event.tick "h2" (ProbeResult.failure FailureKind.Timeout)] := by
    decide
  have hnone : findSession ({ sessions := [] } : SchedState) "h1" = none := rfl
  have hsnap : sampleSnap ∈ (runTrace (stopMonitoring schedTwoHosts "h1")
      [Event.tick "h2" (ProbeResult.failure FailureKind.Timeout)]).2 := by
    decide
  exact ⟨hmem, hsnap,
    C6_stop_halts_publication.1 schedTwoHosts "h1"
      [Event.tick "h2" (ProbeResult.failure FailureKind.Timeout)] hmem sampleSnap hsnap,
    hnone,
    C6_stop_halts_publication.2 _ "h1" _ hnone⟩

/-- A host configuration, from the HostConfig interface in the frontend
sources. -/
structure HostConfig where
  id : String
  name : String
  address : String
  command : String
  display_rules : List DisplayRule
  deriving DecidableEq, Repr

/-- A read-only host preset template, from the HostPreset interface in
the frontend sources. -/
structure HostPreset where
  id : String
  name : String
  address : String
  command : String
  deriving DecidableEq, Repr

/-- Global application settings, from the AppSettings interface in the
frontend sources; the string-literal unions of the TypeScript interface
are modelled as strings. -/
structure AppSettings where
  hosts : List HostConfig
  ping_interval : ℕ
  auto_start : Bool
  notification_type : String
  bark_url : String
  display_strategy : String
  show_latency : Bool
  show_labels : Bool
  log_level : String
  enable_notifications : Bool
  presets : List HostPreset
  deriving DecidableEq, Repr

/-- Modelled from the spec: an apply_settings payload as received over
the command surface — either malformed raw text that fails to
deserialize, or a well-formed AppSettings value. -/
inductive SettingsPayload
  | malformed (raw : String)
  | wellFormed (s : AppSettings)
  deriving DecidableEq, Repr

/-- Modelled from the spec: deserialization of a settings payload; a
malformed payload yields no settings value. -/
def decodeSettings : SettingsPayload → Option AppSettings
  | SettingsPayload.malformed _ => none
  | SettingsPayload.wellFormed s => some s

/-- Modelled from the spec: the state owned by the SettingsStore — the
current settings together with the running sessions of the scheduler. -/
structure SettingsStore where
  settings : AppSettings
  sched : SchedState
  deriving DecidableEq, Repr

/-- Modelled from the spec: get_settings returns the stored settings. -/
def getSettings (st : SettingsStore) : AppSettings := st.settings

/-- Check of a command outcome for an error. -/
def isErr : Except String Unit → Bool
  | Except.error _ => true
  | Except.ok _ => false

/-- Modelled from the spec: apply_settings is all-or-nothing — a payload
that fails to decode, or a failure to persist (persistOk false), leaves
the stored settings and the running sessions unchanged and reports a
synchronous error; otherwise the new settings are fully applied. -/
def applySettings (st : SettingsStore) (p : SettingsPayload) (persistOk : Bool) :
    SettingsStore × Except String Unit :=
  match decodeSettings p with
  | none => (st, Except.error "invalid settings payload")
  | some s =>
    if persistOk then ({ st with settings := s }, Except.ok ())
    else (st, Except.error "failed to persist settings")

/-- C7: apply_settings is atomic — whenever it reports an error, in
particular for every malformed payload, the whole store including the
running sessions is left unchanged, so a subsequent get_settings still
returns the previous settings; and on success the new settings are
fully applied while the running sessions are untouched. -/
theorem C7_apply_settings_atomic :
    (∀ (st : SettingsStore) (p : SettingsPayload) (ok : Bool),
      isErr (applySettings st p ok).2 = true → (applySettings st p ok).1 = st) ∧
    (∀ (st : SettingsStore) (raw : String) (ok : Bool),
      isErr (applySettings st (SettingsPayload.malformed raw) ok).2 = true ∧
      getSettings (applySettings st (SettingsPayload.malformed raw) ok).1 = getSettings st) ∧
    (∀ (st : SettingsStore) (s : AppSettings),
      getSettings (applySettings st (SettingsPayload.wellFormed s) true).1 = s ∧
      (applySettings st (SettingsPayload.wellFormed s) true).1.sched = st.sched) := by
  refine ⟨?_, ?_, ?_⟩
  · intro st p ok herr
    cases p with
    | malformed raw => rfl
    | wellFormed s =>
      cases ok with
      | true => simp [applySettings, decodeSettings, isErr] at herr
      | false => rfl
  · intro st raw ok
    exact ⟨rfl, rfl⟩
  · intro st s
    exact ⟨rfl, rfl⟩

/-- A concrete settings value used by witnesses. -/
def sampleSettings : AppSettings :=
  { hosts := [], ping_interval := 5, auto_start := false,
    notification_type := "system", bark_url := "",
    display_strategy := "first", show_latency := true, show_labels := true,
    log_level := "info", enable_notifications := true, presets := [] }

/-- A concrete settings store used by witnesses. -/
def sampleStore : SettingsStore :=
  { settings := sampleSettings, sched := { sessions := [] } }

/-- C7 witness: a concrete malformed payload is rejected and leaves the
concrete store unchanged. -/
theorem C7_apply_settings_atomic_witness :
    isErr (applySettings sampleStore (SettingsPayload.malformed "oops") true).2 = true ∧
    (applySettings sampleStore (SettingsPayload.malformed "oops") true).1 = sampleStore := by
  have herr : isErr (applySettings sampleStore
      (SettingsPayload.malformed "oops") true).2 = true := rfl
  exact ⟨herr, C7_apply_settings_atomic.1 sampleStore (SettingsPayload.malformed "oops") true herr⟩

/-- Modelled from the spec: add_host validates the required name and
address fields and rejects duplicate ids; on failure the registry is
returned unchanged together with a synchronous error, otherwise the
host is appended. -/
def addHost (reg : List HostConfig) (c : HostConfig) : List HostConfig × Option String :=
  if reg.any (fun h => h.id == c.id) then (reg, some "duplicate id")
  else if c.name = "" then (reg, some "missing name")
  else if c.address = "" then (reg, some "missing address")
  else (reg ++ [c], none)

/-- C8: add_host returns a synchronous error exactly when the config
duplicates an existing host id or is missing (empty) the name or the
address field, and on such a failure the registry is left unchanged; on
success the host is appended. -/
theorem C8_add_host_spec (reg : List HostConfig) (c : HostConfig) :
    ((addHost reg c).2.isSome ↔ ((∃ h ∈ reg, h.id = c.id) ∨ c.name = "" ∨ c.address = "")) ∧
    ((addHost reg c).2.isSome → (addHost reg c).1 = reg) ∧
    ((addHost reg c).2 = none → (addHost reg c).1 = reg ++ [c]) := by
  unfold addHost
  by_cases hdup : reg.any (fun h => h.id == c.id) = true
  · rw [if_pos hdup]
    refine ⟨?_, fun _ => rfl, ?_⟩
    · simp only [Option.isSome_some, true_iff]
      left
      rcases List.any_eq_true.mp hdup with ⟨h, hh, he⟩
      exact ⟨h, hh, by simpa using he⟩
    · intro h
      simp at h
  · rw [if_neg hdup]
    by_cases hname : c.name = ""
    · rw [if_pos hname]
      refine ⟨by simp [hname], fun _ => rfl, ?_⟩
      intro h
      simp at h
    · rw [if_neg hname]
      by_cases haddr : c.address = ""
      · rw [if_pos haddr]
        refine ⟨by simp [haddr], fun _ => rfl, ?_⟩
        intro h
        simp at h
      · rw [if_neg haddr]
        refine ⟨?_, ?_, fun _ => rfl⟩
        · constructor
          · intro h
            simp at h
          · rintro (⟨h, hh, he⟩ | h | h)
            · exact absurd (List.any_eq_true.mpr ⟨h, hh, by simpa using he⟩) hdup
            · exact absurd h hname
            · exact absurd h haddr
        · intro h
          simp at h

/-- A concrete host configuration used by witnesses. -/
def sampleHost : HostConfig :=
  { id := "h1", name := "Host One", address := "1.1.1.1", command := "",
    display_rules := [] }

/-- C8 witness: adding a concrete duplicate host fails and leaves the
registry unchanged. -/
theorem C8_add_host_spec_witness :
    (addHost [sampleHost] sampleHost).2.isSome = true ∧
    (addHost [sampleHost] sampleHost).1 = [sampleHost] := by
  have hs : (addHost [sampleHost] sampleHost).2.isSome = true := rfl
  exact ⟨hs, (C8_add_host_spec [sampleHost] sampleHost).2.1 hs⟩

/-- C9: every ping-stats event prepends exactly its one generated entry
at the head of the log buffer; a buffer within the 1000 bound stays
within it; below the bound the event is a pure prepend, and at the
bound the last, oldest entry is the one dropped. -/
theorem C9_log_buffer_bounded (logs : List LogEntry) (stats : PingStats) (hostName : String) :
    (onPingStatsLogs logs stats hostName).head? = some (mkLogEntry stats hostName) ∧
    (logs.length ≤ 1000 → (onPingStatsLogs logs stats hostName).length ≤ 1000) ∧
    (logs.length < 1000 →
      onPingStatsLogs logs stats hostName = mkLogEntry stats hostName :: logs) ∧
    (logs.length = 1000 →
      onPingStatsLogs logs stats hostName = mkLogEntry stats hostName :: logs.dropLast) := by
  refine ⟨?_, ?_, ?_, ?_⟩
  · simp only [onPingStatsLogs, pushLog]
    split
    · rename_i hgt
      cases logs with
      | nil => simp at hgt
      | cons a t => rfl
    · rfl
  · intro hle
    simp only [onPingStatsLogs, pushLog]
    split <;> rename_i hcond <;>
      simp only [List.length_dropLast, List.length_cons] at hcond ⊢ <;> omega
  · intro hlt
    have hc : ¬ 1000 < (mkLogEntry stats hostName :: logs).length := by
      simp only [List.length_cons]
      omega
    simp only [onPingStatsLogs, pushLog, if_neg hc]
  · intro heq
    have hc : 1000 < (mkLogEntry stats hostName :: logs).length := by
      simp only [List.length_cons]
      omega
    simp only [onPingStatsLogs, pushLog, if_pos hc]
    cases logs with
    | nil => simp at heq
    | cons a t => rfl

/-- C9 witness: one event on the empty buffer stays within the bound
and the generated entry sits at the head. -/
theorem C9_log_buffer_bounded_witness :
    ([] : List LogEntry).length ≤ 1000 ∧
    (onPingStatsLogs [] samplePingStats "h1").length ≤ 1000 ∧
    (onPingStatsLogs [] samplePingStats "h1").head? = some (mkLogEntry samplePingStats "h1") :=
  ⟨by simp, (C9_log_buffer_bounded [] samplePingStats "h1").2.1 (by simp),
   (C9_log_buffer_bounded [] samplePingStats "h1").1⟩

/-- C10: the ALL filter returns the log list unchanged; every filter
yields a sublist of the original list, hence preserves the original
relative order; and a level filter keeps exactly the entries whose
level equals the selected one. -/
theorem C10_filteredLogs_spec (logs : List LogEntry) :
    filteredLogs logs LogFilter.ALL = logs ∧
    (∀ f : LogFilter, List.Sublist (filteredLogs logs f) logs) ∧
    (∀ (L : LogLevel) (e : LogEntry),
      e ∈ filteredLogs logs (LogFilter.byLevel L) ↔ e ∈ logs ∧ e.level = L) := by
  refine ⟨rfl, ?_, ?_⟩
  · intro f
    cases f with
    | ALL => exact List.Sublist.refl logs
    | byLevel L => exact List.filter_sublist logs
  · intro L e
    simp [filteredLogs, List.mem_filter]

end PingMonitor
